import Mathlib

/-!
Verification development for the CPF scraper repository.

Each namespace below is a shallow embedding of one source module:

* `Humanizer`  — `src/utils/humanizer.ts` (`randomBetween`, `humanDelay`)
* `AppConfig`  — `src/config/appConfig.ts` default configuration values
* `CenterUtil` — `src/utils/center.ts` (`normalizeCenterName` and helpers)
* `Extract`    — `src/extract/index.ts` (field pickers, item keys, dedup loop,
  one-training-per-center persister)
* `Enrich`     — `src/enrich/index.ts` (website URL guard, detail transaction,
  worker selection / failure handling)
* `Opendata`   — `src/sync/opendata.ts` and its evolved variant
  (`pickBestRecord` record acceptance)

JavaScript numbers are modelled as `ℚ` (all values arising here are finite
decimals), JS strings as Lean `String` (the strings involved are ASCII or
plain Latin text, where UTF-16 length and code-point length agree), and
`undefined`-returning functions as `Option`-valued functions.
-/

namespace Humanizer

/-- Embeds `randomBetween(min, max)` from `src/utils/humanizer.ts`:
`if (max <= min) return min; return Math.random() * (max - min) + min;`
`Math.random()` is modelled by the explicit parameter `r ∈ [0, 1)`. -/
def randomBetween (min max r : ℚ) : ℚ :=
  if max ≤ min then min else r * (max - min) + min

/-- Embeds the sleep duration of `humanDelay(baseMs)` from
`src/utils/humanizer.ts`: `jitter = randomBetween(0.3, 1.7);
waitFor(baseMs * jitter)`. The random draw for the jitter is the explicit
parameter `r`. -/
def humanDelayDuration (baseMs r : ℚ) : ℚ :=
  baseMs * randomBetween (3/10) (17/10) r

end Humanizer

namespace AppConfig

/-- Default `minWaitMs` from `src/config/appConfig.ts` (`MIN_WAIT_MS ?? 750`). -/
def minWaitMs : ℚ := 750

/-- Default `maxWaitMs` from `src/config/appConfig.ts` (`MAX_WAIT_MS ?? 2000`). -/
def maxWaitMs : ℚ := 2000

end AppConfig

namespace CenterUtil

/-- Models JavaScript's `\w` character class (ASCII word characters), used by
the `\b` word boundaries in `stripCorporateTokens`. -/
def isWordChar (c : Char) : Bool :=
  c.isAlphanum || c = '_'

/-- Models JavaScript's `\s` for the whitespace characters that occur in the
data handled here. -/
def isJsSpace (c : Char) : Bool :=
  c = ' ' || c = '\t' || c = '\n' || c = '\r'

/-- Maps a precomposed accented Latin letter to its base letter. Embeds
`value.normalize('NFD').replace(/\p{Diacritic}+/gu, '')` from
`src/utils/center.ts` for the Latin-1 letters that occur in the scraped
names; other characters are unchanged. -/
def stripDiacritic (c : Char) : Char :=
  match c with
  | 'à' | 'á' | 'â' | 'ä' | 'ã' => 'a'
  | 'è' | 'é' | 'ê' | 'ë' => 'e'
  | 'ì' | 'í' | 'î' | 'ï' => 'i'
  | 'ò' | 'ó' | 'ô' | 'ö' | 'õ' => 'o'
  | 'ù' | 'ú' | 'û' | 'ü' => 'u'
  | 'ç' => 'c'
  | 'ÿ' => 'y'
  | 'ñ' => 'n'
  | 'À' | 'Á' | 'Â' | 'Ä' | 'Ã' => 'A'
  | 'È' | 'É' | 'Ê' | 'Ë' => 'E'
  | 'Ì' | 'Í' | 'Î' | 'Ï' => 'I'
  | 'Ò' | 'Ó' | 'Ô' | 'Ö' | 'Õ' => 'O'
  | 'Ù' | 'Ú' | 'Û' | 'Ü' => 'U'
  | 'Ç' => 'C'
  | _ => c

/-- Embeds `removeAccents` from `src/utils/center.ts`. -/
def removeAccents (s : String) : String :=
  String.mk (s.data.map stripDiacritic)

/-- Embeds `.replace(/&/g, ' et ')` on the character list. -/
def ampersandToEt (cs : List Char) : List Char :=
  cs.flatMap (fun c => if c = '&' then " et ".data else [c])

/-- Embeds `CORPORATE_TOKENS` from `src/utils/center.ts`, each token split
into its words (the source turns interior spaces into `\s+`). -/
def corporateTokens : List (List String) :=
  [["sarl"], ["sas"], ["sasu"], ["eurl"], ["earl"], ["sa"], ["sca"],
   ["scop"], ["sci"], ["selarl"], ["selas"], ["association"],
   ["centre", "de", "formation"], ["centre", "formation"],
   ["organisme", "de", "formation"], ["organisme", "formation"],
   ["formation"]]

/-- Matches one token word as a literal prefix; returns the suffix. -/
def matchWord : List Char → List Char → Option (List Char)
  | [], cs => some cs
  | _ :: _, [] => none
  | w :: ws, c :: cs => if w = c then matchWord ws cs else none

/-- Consumes one or more `\s` characters; returns the suffix. -/
def matchSpaces1 : List Char → Option (List Char)
  | [] => none
  | c :: cs =>
    if isJsSpace c then some (cs.dropWhile isJsSpace) else none

/-- Matches the words of one corporate token separated by `\s+`, starting
exactly at the given position; returns the suffix after the match. -/
def matchToken : List String → List Char → Option (List Char)
  | [], cs => some cs
  | [w], cs => matchWord w.data cs
  | w :: ws, cs => do
    let cs1 ← matchWord w.data cs
    let cs2 ← matchSpaces1 cs1
    matchToken ws cs2

/-- Scans the string left to right and replaces every `\b token \b` match with
a single space, as `result.replace(pattern, ' ')` does. `prevIsWord` records
whether the previous character of the original string is a word character
(the state of the left `\b`); a match is accepted only when the character
after it also fails `isWordChar` (the right `\b`). `fuel` bounds the
recursion; it is called with the length of the list, which suffices because
every step consumes at least one character. -/
def replaceTokenAux (words : List String) :
    Nat → Bool → List Char → List Char
  | 0, _, cs => cs
  | _ + 1, _, [] => []
  | fuel + 1, prevIsWord, c :: cs =>
    let next :=
      if prevIsWord then none
      else
        match matchToken words (c :: cs) with
        | none => none
        | some rest =>
          match rest.head? with
          | none => some rest
          | some d => if isWordChar d then none else some rest
    match next with
    | some rest => ' ' :: replaceTokenAux words fuel true rest
    | none => c :: replaceTokenAux words fuel (isWordChar c) cs

/-- Replaces all boundary-delimited occurrences of one corporate token. -/
def replaceToken (words : List String) (cs : List Char) : List Char :=
  replaceTokenAux words cs.length false cs

/-- Embeds `stripCorporateTokens` from `src/utils/center.ts`: the tokens are
removed in list order, each pass rewriting the previous result. -/
def stripCorporateTokens (cs : List Char) : List Char :=
  corporateTokens.foldl (fun acc words => replaceToken words acc) cs

/-- Replaces each maximal run of characters satisfying `p` with a single
replacement character (the effect of `.replace(/X+/g, ' ')`). `inRun` is true
when the previous character was part of a run. -/
def squashRuns (p : Char → Bool) (repl : Char) :
    Bool → List Char → List Char
  | _, [] => []
  | inRun, c :: cs =>
    if p c then
      if inRun then squashRuns p repl true cs
      else repl :: squashRuns p repl true cs
    else c :: squashRuns p repl false cs

/-- Embeds `String.prototype.trim` for the character lists used here. -/
def jsTrim (cs : List Char) : List Char :=
  ((cs.dropWhile isJsSpace).reverse.dropWhile isJsSpace).reverse

/-- Shared tail of `normalizeCenterName`: `.replace(/[^a-z0-9]+/g, ' ')
.replace(/\s+/g, ' ').trim()`. -/
def collapseToTokens (cs : List Char) : List Char :=
  jsTrim (squashRuns isJsSpace ' ' false
    (squashRuns (fun c => !(c.isLower || c.isDigit)) ' ' false cs))

/-- Embeds the `removeAccents(rawName).replace(/&/g, ' et ').toLowerCase()`
prefix of `normalizeCenterName`. -/
def lowerNoAccents (rawName : String) : List Char :=
  (ampersandToEt (removeAccents rawName).data).map Char.toLower

/-- Embeds `normalizeCenterName` from `src/utils/center.ts`, including its
fallback to the token-intact form when stripping erases the whole string. -/
def normalizeCenterName (rawName : String) : String :=
  let withoutAccents := lowerNoAccents rawName
  let sanitized := stripCorporateTokens withoutAccents
  let normalized := collapseToTokens sanitized
  if normalized.isEmpty then
    String.mk (collapseToTokens withoutAccents)
  else
    String.mk normalized

end CenterUtil

namespace Extract

/-- Leaf values of the raw JSON records harvested from the site. JS numbers
are modelled as `ℚ` (every IEEE double is a finite decimal; `NaN`/infinities
do not occur in parsed JSON). `undefined` fields are simply absent from the
record. -/
inductive JsValue where
  | vStr (s : String)
  | vNum (q : ℚ)
  | vBool (b : Bool)
  | vNull
deriving DecidableEq, Repr

/-- Models a raw item (`JsonRecord = Record<string, unknown>`): an ordered
list of key/value pairs, first binding wins on lookup. -/
def Item := List (String × JsValue)
deriving DecidableEq, Repr

/-- Field access `item[key]`; `none` models `undefined`. -/
def lookupField (item : Item) (key : String) : Option JsValue :=
  (List.find? (fun p => p.1 = key) item).map Prod.snd

/-- Embeds `value.trim()` -/
def jsTrimStr (s : String) : String :=
  String.mk (CenterUtil.jsTrim s.data)

/-- Renders a `ℚ` the way `String(value)` / `JSON.stringify` renders a JS
number, for numbers that are finite decimals (every double arising in the
scraped records is): integer part, then fractional digits without trailing
zeros. Non-terminating rationals (unreachable from doubles) fall back to a
fraction spelling. -/
def decimalString (q : ℚ) : String :=
  if q.den = 1 then toString q.num
  else
    match (List.range 40).find? (fun k => (q.den : ℤ) ∣ (10 : ℤ) ^ k) with
    | some k =>
      let scaled : ℤ := q.num * 10 ^ k / (q.den : ℤ)
      let digits := toString scaled.natAbs
      let padded :=
        if digits.length < k + 1 then
          String.mk (List.replicate (k + 1 - digits.length) '0') ++ digits
        else digits
      let intPart := padded.take (padded.length - k)
      let fracPart := String.mk ((padded.drop (padded.length - k)).data.reverse.dropWhile (· = '0')).reverse
      let body := if fracPart.isEmpty then intPart else intPart ++ "." ++ fracPart
      if q.num < 0 then "-" ++ body else body
    | none => toString q.num ++ "/" ++ toString q.den

/-- Serializes one leaf value as `JSON.stringify` does (strings here need no
escape sequences). -/
def serializeValue : JsValue → String
  | .vStr s => "\"" ++ s ++ "\""
  | .vNum q => decimalString q
  | .vBool b => if b then "true" else "false"
  | .vNull => "null"

/-- Embeds `JSON.stringify(item)` for flat records: the structural-hash
fallback of `identifyItemKey`. -/
def serializeItem (item : Item) : String :=
  "\x7b" ++ String.intercalate ","
    (item.map (fun p => "\"" ++ p.1 ++ "\":" ++ serializeValue p.2)) ++ "\x7d"

/-- Embeds the `possibleKeys` priority list of `identifyItemKey` in
`src/extract/index.ts`. -/
def possibleKeys : List String :=
  ["id", "idFormation", "idOffre", "numeroOffre", "numeroFormation", "code",
   "codeFormation", "detailUrl", "url", "urlFiche", "trainingCardId"]

/-- Probes the identifier fields in priority order: a string with non-empty
trim is returned trimmed, a number is returned via `String(value)`, anything
else falls through to the next key. -/
def probeKeys : List String → Item → Option String
  | [], _ => none
  | key :: rest, item =>
    match lookupField item key with
    | some (.vStr s) =>
      if (jsTrimStr s).length > 0 then some (jsTrimStr s) else probeKeys rest item
    | some (.vNum q) => some (decimalString q)
    | _ => probeKeys rest item

/-- Embeds `identifyItemKey` from `src/extract/index.ts`. -/
def identifyItemKey (item : Item) : String :=
  (probeKeys possibleKeys item).getD (serializeItem item)

/-- Embeds `pickString(...values)` from `src/extract/index.ts`. -/
def pickString : List JsValue → Option String
  | [] => none
  | .vStr s :: rest =>
    if (jsTrimStr s).length > 0 then some (jsTrimStr s) else pickString rest
  | _ :: rest => pickString rest

/-- Accumulates a digit string into a natural number. -/
def digitsToNat (cs : List Char) : Nat :=
  cs.foldl (fun n c => 10 * n + (c.toNat - 48)) 0

/-- Syntactic half of the `Number(string)` model: recognizes
`[+-]? digits [. digits]` (with at least one digit overall) and returns
(negative?, integer-part value, fraction-part value, fraction length);
`none` models `NaN`. The empty string is handled by `jsNumber` itself. -/
def jsNumberParts (s : String) : Option (Bool × Nat × Nat × Nat) :=
  let cs := CenterUtil.jsTrim s.data
  let signed : Bool × List Char :=
    match cs with
    | '-' :: rest => (true, rest)
    | '+' :: rest => (false, rest)
    | rest => (false, rest)
  let intPart := signed.2.takeWhile Char.isDigit
  let rest := signed.2.dropWhile Char.isDigit
  match rest with
  | [] =>
    if intPart.isEmpty then none
    else some (signed.1, digitsToNat intPart, 0, 0)
  | '.' :: frac =>
    if frac.all Char.isDigit && !(intPart.isEmpty && frac.isEmpty) then
      some (signed.1, digitsToNat intPart, digitsToNat frac, frac.length)
    else none
  | _ => none

/-- Embeds `Number(string)` for the strings produced by `pickNumber`'s
stripping step (signed decimal literals over `[0-9.,-]`): the empty string
converts to `0`, a signed decimal literal converts to its value, anything
else is `NaN` (`none`). -/
def jsNumber (s : String) : Option ℚ :=
  if (CenterUtil.jsTrim s.data).isEmpty then some 0
  else
    (jsNumberParts s).map (fun p =>
      (if p.1 then (-1 : ℚ) else 1) *
        ((p.2.1 : ℚ) + (p.2.2.1 : ℚ) / (10 : ℚ) ^ p.2.2.2))

/-- Embeds `value.replace(/[^0-9.,-]/g, "")`. -/
def stripNonNumeric (s : String) : String :=
  String.mk (s.data.filter (fun c => c.isDigit || c = '.' || c = ',' || c = '-'))

/-- Embeds `.replace(",", ".")`: a string pattern, so only the FIRST comma is
replaced. -/
def commaToDot : List Char → List Char
  | [] => []
  | c :: rest => if c = ',' then '.' :: rest else c :: commaToDot rest

/-- Embeds `pickNumber(...values)` from `src/extract/index.ts`: first finite
number among the candidates, strings normalized by stripping non-numeric
characters and converting the first comma to a period. -/
def pickNumber : List JsValue → Option ℚ
  | [] => none
  | .vNum q :: _ => some q
  | .vStr s :: rest =>
    match jsNumber (String.mk (commaToDot (stripNonNumeric s).data)) with
    | some q => some q
    | none => pickNumber rest
  | _ :: rest => pickNumber rest

end Extract

namespace CenterUtil

/-- Tests whether `needle` occurs as a contiguous prefix of `hay`. -/
def startsWithChars : List Char → List Char → Bool
  | [], _ => true
  | _ :: _, [] => false
  | a :: as, b :: bs => a = b && startsWithChars as bs

/-- Tests whether `needle` occurs contiguously anywhere in `hay`: models
`String.prototype.includes` and the regex test `/distance/i.test(...)`. -/
def containsSub (needle : List Char) : List Char → Bool
  | [] => needle.isEmpty
  | c :: cs => startsWithChars needle (c :: cs) || containsSub needle cs

/-- Embeds `sanitizeCity` from `src/utils/center.ts`. -/
def sanitizeCity (value : Option String) : Option String :=
  match value with
  | none => none
  | some v =>
    let cleaned := String.mk (jsTrim (squashRuns isJsSpace ' ' false v.data))
    if cleaned.isEmpty then none
    else if containsSub "distance".data (cleaned.data.map Char.toLower) then none
    else some cleaned

/-- Finds the first position with at least four consecutive digits and
returns up to six digits from there: the `value.match(/\d{4,6}/)` step of
`sanitizePostalCode`. A position starting inside a too-short digit run fails
as well, so scanning one character at a time matches the regex engine. -/
def firstDigitRun : List Char → Option (List Char)
  | [] => none
  | c :: cs =>
    let run := (c :: cs).takeWhile Char.isDigit
    if run.length ≥ 4 then some (run.take 6) else firstDigitRun cs

/-- Embeds `sanitizePostalCode` from `src/utils/center.ts`:
`value.match(/\d{4,6}/)` then `match[0].slice(0, 5)`. -/
def sanitizePostalCode (value : Option String) : Option String :=
  match value with
  | none => none
  | some v =>
    match firstDigitRun v.data with
    | none => none
    | some run => some (String.mk (run.take 5))

/-- Embeds `sanitizeRegion` from `src/utils/center.ts` (same body as
`sanitizeCity`). -/
def sanitizeRegion (value : Option String) : Option String :=
  sanitizeCity value

/-- Embeds `sanitizeCountry` from `src/utils/center.ts`. -/
def sanitizeCountry (value : Option String) : Option String :=
  match value with
  | none => none
  | some v =>
    let cleaned := String.mk (jsTrim (squashRuns isJsSpace ' ' false v.data))
    if cleaned.isEmpty then none
    else if cleaned.length = 2 then some (String.mk (cleaned.data.map Char.toUpper))
    else some cleaned

end CenterUtil

namespace Extract

/-- Truthiness of an optional string (`if (!x)` in JS): present and
non-empty. -/
def truthy : Option String → Bool
  | none => false
  | some s => !s.isEmpty

/-- Relevant fields of `NormalizedListItem` from `src/extract/index.ts`.
Content fields that the persister merely copies into the row and that no
claim inspects (summary, modality, certification, location, region, price,
duration, raw payload) are elided. -/
structure NormalizedListItem where
  title : Option String
  detailUrl : Option String
  centerName : Option String
  centerExternalId : Option String
  centerCity : Option String
  centerPostalCode : Option String
  centerRegion : Option String
  centerCountry : Option String
deriving DecidableEq, Repr

/-- A `TrainingCenter` row with the fields `ensureCenter` reads or writes. -/
structure TrainingCenterRow where
  id : Nat
  externalId : Option String
  name : String
  normalizedName : String
  city : Option String
  postalCode : Option String
  region : Option String
  country : String
  lastListScrapedAt : Nat
deriving DecidableEq, Repr

/-- A `Training` row with the fields `persistListItem` reads or writes
(content columns it merely copies are elided). -/
structure TrainingRow where
  id : Nat
  centerId : Nat
  detailUrl : String
  title : String
  searchQuery : String
  needsDetail : Bool
  lastListScrapedAt : Nat
deriving DecidableEq, Repr

/-- The relational store as seen by the extractor. -/
structure Db where
  centers : List TrainingCenterRow
  trainings : List TrainingRow
  nextCenterId : Nat
  nextTrainingId : Nat
deriving DecidableEq, Repr

/-- Log events the persister can emit. -/
inductive LogEvent where
  | itemSkippedWarn
  | centerNotResolvedWarn
  | centerNameWarn
  | duplicateCenterDebug (centerId : Nat)
deriving DecidableEq, Repr

/-- Applies `updateData` of `ensureCenter` to an existing center row:
`name`, `normalizedName`, `lastListScrapedAt` always; city/postal
code/region/country only when truthy. -/
def applyCenterUpdate (row : TrainingCenterRow) (name normalizedName : String)
    (city postalCode region : Option String) (country : String) (now : Nat) :
    TrainingCenterRow :=
  { row with
    name := name
    normalizedName := normalizedName
    lastListScrapedAt := now
    city := city <|> row.city
    postalCode := postalCode <|> row.postalCode
    region := region <|> row.region
    country := country }

/-- Builds `createData` of `ensureCenter` for a fresh center row. -/
def newCenterRow (id : Nat) (externalId : Option String)
    (name normalizedName : String) (city postalCode region : Option String)
    (country : String) (now : Nat) : TrainingCenterRow :=
  { id := id
    externalId := externalId
    name := name
    normalizedName := normalizedName
    city := city
    postalCode := postalCode
    region := region
    country := country
    lastListScrapedAt := now }

/-- Embeds `ensureCenter` from `src/extract/index.ts`: external-id upsert
when the item carries one, otherwise lookup by `normalizedName`, update if
found, create if not. Returns the updated store, the resolved center (or
`none`), and the log events. -/
def ensureCenter (db : Db) (item : NormalizedListItem) (now : Nat) :
    Db × Option TrainingCenterRow × List LogEvent :=
  match item.centerName.map jsTrimStr with
  | none => (db, none, [])
  | some name =>
    if name.isEmpty then (db, none, [])
    else
      let normalizedName := CenterUtil.normalizeCenterName name
      if normalizedName.isEmpty then (db, none, [.centerNameWarn])
      else
        let city := CenterUtil.sanitizeCity item.centerCity
        let postalCode := CenterUtil.sanitizePostalCode item.centerPostalCode
        let region := CenterUtil.sanitizeRegion item.centerRegion
        let country := (CenterUtil.sanitizeCountry item.centerCountry).getD "FR"
        match item.centerExternalId with
        | some extId =>
          match db.centers.find? (fun c => c.externalId = some extId) with
          | some existing =>
            let updated := applyCenterUpdate existing name normalizedName
              city postalCode region country now
            ({ db with centers := (db.centers.map
                (fun c => if c.id = existing.id then updated else c)) },
             some updated, [])
          | none =>
            let created := newCenterRow db.nextCenterId (some extId) name
              normalizedName city postalCode region country now
            ({ db with
                centers := db.centers ++ [created]
                nextCenterId := db.nextCenterId + 1 },
             some created, [])
        | none =>
          match db.centers.find? (fun c => c.normalizedName = normalizedName) with
          | some existing =>
            let updated := applyCenterUpdate existing name normalizedName
              city postalCode region country now
            ({ db with centers := (db.centers.map
                (fun c => if c.id = existing.id then updated else c)) },
             some updated, [])
          | none =>
            let created := newCenterRow db.nextCenterId none name
              normalizedName city postalCode region country now
            ({ db with
                centers := db.centers ++ [created]
                nextCenterId := db.nextCenterId + 1 },
             some created, [])

/-- Embeds `persistListItem` from `src/extract/index.ts` (the
one-training-per-center variant): update when `detailUrl` exists; otherwise
skip when the resolved center already owns a training; otherwise create.
Returns the store, the boolean the function reports, and the log events. -/
def persistListItem (db : Db) (item : NormalizedListItem)
    (queryName : String) (now : Nat) : Db × Bool × List LogEvent :=
  if !truthy item.title || !truthy item.detailUrl then
    (db, false, [.itemSkippedWarn])
  else
    let title := item.title.getD ""
    let detailUrl := item.detailUrl.getD ""
    match ensureCenter db item now with
    | (db1, none, logs) => (db1, false, logs ++ [.centerNotResolvedWarn])
    | (db1, some center, logs) =>
      match db1.trainings.find? (fun t => t.detailUrl = detailUrl) with
      | some existing =>
        let updated := { existing with
          centerId := center.id
          title := title
          searchQuery := queryName
          needsDetail := true
          lastListScrapedAt := now }
        ({ db1 with trainings := (db1.trainings.map
            (fun t => if t.id = existing.id then updated else t)) },
         true, logs)
      | none =>
        match db1.trainings.find? (fun t => t.centerId = center.id) with
        | some _ =>
          (db1, false, logs ++ [.duplicateCenterDebug center.id])
        | none =>
          let created : TrainingRow :=
            { id := db1.nextTrainingId
              centerId := center.id
              detailUrl := detailUrl
              title := title
              searchQuery := queryName
              needsDetail := true
              lastListScrapedAt := now }
          ({ db1 with
              trainings := db1.trainings ++ [created]
              nextTrainingId := db1.nextTrainingId + 1 },
           true, logs)

/-- Models the per-item body of the harvest loops in `processQuery`
(`src/extract/index.ts`): derive the key, skip when already processed,
otherwise record the key and invoke the persister. Returns the list of items
the persister was invoked on (in order) and the final key set. -/
def processItems : List Item → List String → List Item × List String
  | [], seen => ([], seen)
  | item :: rest, seen =>
    let key := identifyItemKey item
    if key ∈ seen then processItems rest seen
    else
      let step := processItems rest (key :: seen)
      (item :: step.1, step.2)

/-- One round of the query loop: harvested items are deduplicated against
the accumulated key set and the persisted items are appended. -/
def processRoundStep (acc : List Item × List String) (round : List Item) :
    List Item × List String :=
  let step := processItems round acc.2
  (acc.1 ++ step.1, step.2)

/-- Models one full query run: the rounds of harvested raw items are
processed in order against a single `processedKeys` set that starts empty.
Returns every item the persister was invoked on. -/
def processQueryRun (rounds : List (List Item)) : List Item :=
  (rounds.foldl processRoundStep (([], []) : List Item × List String)).1

end Extract

namespace Enrich

/-- Components of a parsed absolute URL (`new URL(...)`): `scheme` without
the colon, lowercased `hostname`, and `pathname` (defaulting to `/`). -/
structure UrlParts where
  scheme : String
  host : String
  path : String
deriving DecidableEq, Repr

/-- Characters allowed after the first letter of a URL scheme. -/
def isSchemeChar (c : Char) : Bool :=
  c.isAlphanum || c = '+' || c = '-' || c = '.'

/-- Embeds the `new URL(value)` constructor for hierarchical
`scheme://host/path` URLs without userinfo or port (the shapes scraped
website links take); any other shape is a parse failure, modelling the
constructor throwing. -/
def parseUrl (s : String) : Option UrlParts :=
  let cs := s.data
  let scheme := cs.takeWhile (· ≠ ':')
  match cs.dropWhile (· ≠ ':') with
  | ':' :: '/' :: '/' :: tail =>
    match scheme with
    | [] => none
    | c0 :: restScheme =>
      if c0.isAlpha && restScheme.all isSchemeChar then
        let host := tail.takeWhile (fun c => c ≠ '/' && c ≠ '?' && c ≠ '#')
        if host.isEmpty then none
        else
          let afterHost := tail.drop host.length
          let path := afterHost.takeWhile (fun c => c ≠ '?' && c ≠ '#')
          some { scheme := String.mk ((c0 :: restScheme).map Char.toLower)
                 host := String.mk (host.map Char.toLower)
                 path := if path.isEmpty then "/" else String.mk path }
      else none
  | _ => none

/-- Embeds `validateWebsiteUrl` from `src/enrich/index.ts`: values at most
255 characters pass through trimmed; longer values are canonicalized to
`scheme://host/path` and hard-truncated to 255 characters only when that
form (or an unparseable value) is still too long. -/
def validateWebsiteUrl (url : Option String) : Option String :=
  match url with
  | none => none
  | some u =>
    let trimmedUrl := Extract.jsTrimStr u
    if trimmedUrl.isEmpty then none
    else if trimmedUrl.length ≤ 255 then some trimmedUrl
    else
      let candidate :=
        if CenterUtil.startsWithChars "http".data trimmedUrl.data then trimmedUrl
        else "https://" ++ trimmedUrl
      match parseUrl candidate with
      | some urlObj =>
        let cleanUrl := urlObj.scheme ++ "://" ++ urlObj.host ++ urlObj.path
        if cleanUrl.length ≤ 255 then some cleanUrl
        else some (String.mk (cleanUrl.data.take 255))
      | none => some (String.mk (trimmedUrl.data.take 255))

/-- The contact and address fields `parseDetailPage` extracts and
`updateCenterInfo` writes, plus the training detail fields the transaction
writes. `raw` is kept as a flag (payload always present). -/
structure ParsedDetailData where
  priceText : Option String
  priceValue : Option ℚ
  durationText : Option String
  durationHours : Option Int
  summary : Option String
  email : Option String
  phone : Option String
  website : Option String
  address : Option String
  city : Option String
  postalCode : Option String
  region : Option String
  country : Option String
deriving DecidableEq, Repr

/-- A `TrainingCenter` row restricted to the columns `updateCenterInfo`
writes. -/
structure CenterInfoRow where
  address : Option String
  city : Option String
  postalCode : Option String
  region : Option String
  country : Option String
  email : Option String
  phone : Option String
  website : Option String
  lastDetailScrapedAt : Option Nat
deriving DecidableEq, Repr

/-- A `Training` row restricted to the columns the detail transaction
writes. `detailPageData` records whether a raw detail payload has been
stored. -/
structure TrainingDetailRow where
  needsDetail : Bool
  priceText : Option String
  priceValue : Option ℚ
  durationText : Option String
  durationHours : Option Int
  summary : Option String
  detailPageData : Bool
  lastDetailScrapedAt : Option Nat
deriving DecidableEq, Repr

/-- The store as seen by one enrichment step: the training being processed
and its owning center. -/
structure EnrichDb where
  training : TrainingDetailRow
  center : CenterInfoRow
deriving DecidableEq, Repr

/-- Log events of the enrichment path. -/
inductive EnrichLog where
  | websiteTruncatedWarn (originalLen storedLen : Nat)
  | centerUpdateError
  | retryWithoutSiteInfo
  | retryWithoutSiteOk
  | centerUpdateFallbackError
  | transactionError
  | markedDespiteErrorInfo
  | markFallbackError
deriving DecidableEq, Repr

/-- The update object `centerUpdates` built by `updateCenterInfo`:
`lastDetailScrapedAt` always, each other column only when the parsed value
is truthy, the website only after `validateWebsiteUrl`. -/
structure CenterUpdates where
  address : Option String
  city : Option String
  postalCode : Option String
  region : Option String
  country : Option String
  email : Option String
  phone : Option String
  website : Option String
  lastDetailScrapedAt : Nat
deriving DecidableEq, Repr

/-- Keeps a parsed value only when truthy (`if (parsed.x) updates.x = ...`). -/
def keepTruthy (v : Option String) : Option String :=
  if Extract.truthy v then v else none

/-- Builds `centerUpdates` as `updateCenterInfo` does. -/
def buildCenterUpdates (parsed : ParsedDetailData) (now : Nat) : CenterUpdates :=
  { address := keepTruthy parsed.address
    city := keepTruthy parsed.city
    postalCode := keepTruthy parsed.postalCode
    region := keepTruthy parsed.region
    country := keepTruthy parsed.country
    email := keepTruthy parsed.email
    phone := keepTruthy parsed.phone
    website := keepTruthy (validateWebsiteUrl parsed.website)
    lastDetailScrapedAt := now }

/-- Applies an update object to a center row: absent fields keep the stored
value. -/
def applyCenterUpdates (row : CenterInfoRow) (u : CenterUpdates) : CenterInfoRow :=
  { address := u.address <|> row.address
    city := u.city <|> row.city
    postalCode := u.postalCode <|> row.postalCode
    region := u.region <|> row.region
    country := u.country <|> row.country
    email := u.email <|> row.email
    phone := u.phone <|> row.phone
    website := u.website <|> row.website
    lastDetailScrapedAt := some u.lastDetailScrapedAt }

/-- Failure injection for one enrichment step: which store operations
reject. `commitFails` models the interactive transaction failing to commit
after its callback returned. -/
structure FailurePlan where
  txUpdateFails : Bool
  centerPrimaryFails : Bool
  centerRetryFails : Bool
  commitFails : Bool
  markFallbackFails : Bool
deriving DecidableEq, Repr

/-- Embeds `updateCenterInfo` from `src/enrich/index.ts`, with failure
injection: on a primary failure with a website in the update object, the
update is retried without the website; `none` models the function throwing.
Crucially, the source issues these updates on the GLOBAL `prisma` client
even though it is called inside `prisma.$transaction`, so a successful write
here commits immediately and is not rolled back with the transaction. -/
def updateCenterInfo (center : CenterInfoRow) (parsed : ParsedDetailData)
    (now : Nat) (plan : FailurePlan) :
    Option CenterInfoRow × List EnrichLog :=
  let centerUpdates := buildCenterUpdates parsed now
  let truncLog : List EnrichLog :=
    match parsed.website, centerUpdates.website with
    | some w, some stored =>
      if w.length > 255 then
        [.websiteTruncatedWarn w.length stored.length]
      else []
    | _, _ => []
  if !plan.centerPrimaryFails then
    (some (applyCenterUpdates center centerUpdates), truncLog)
  else
    match centerUpdates.website with
    | some _ =>
      if !plan.centerRetryFails then
        (some (applyCenterUpdates center { centerUpdates with website := none }),
         truncLog ++ [.centerUpdateError, .retryWithoutSiteInfo, .retryWithoutSiteOk])
      else
        (none, truncLog ++ [.centerUpdateError, .retryWithoutSiteInfo,
          .centerUpdateFallbackError])
    | none => (none, truncLog ++ [.centerUpdateError])

/-- The training-side update of the detail transaction: fields passed as
`undefined` (absent parse results) leave the column unchanged; `needsDetail`
is cleared and the raw payload and timestamp are always written. -/
def applyTrainingDetailUpdate (row : TrainingDetailRow)
    (parsed : ParsedDetailData) (now : Nat) : TrainingDetailRow :=
  { needsDetail := false
    priceText := parsed.priceText <|> row.priceText
    priceValue := parsed.priceValue <|> row.priceValue
    durationText := parsed.durationText <|> row.durationText
    durationHours := parsed.durationHours <|> row.durationHours
    summary := parsed.summary <|> row.summary
    detailPageData := true
    lastDetailScrapedAt := some now }

/-- The catch-block fallback of `processTraining`: mark the training as
done (`needsDetail=false`, fresh timestamp) on the global client, writing no
other column. -/
def markDoneFallback (db : EnrichDb) (now : Nat) (plan : FailurePlan) :
    EnrichDb × List EnrichLog :=
  if plan.markFallbackFails then (db, [.markFallbackError])
  else
    ({ db with training := { db.training with
        needsDetail := false
        lastDetailScrapedAt := some now } },
     [.markedDespiteErrorInfo])

/-- Embeds the persistence phase of `processTraining` after a successful
detail parse (`src/enrich/index.ts`, the `prisma.$transaction` block and its
catch): the training update is buffered inside the transaction and applied
at commit, while `updateCenterInfo` writes through the global client and is
therefore applied immediately, whatever the transaction later does. Returns
the resulting store, the boolean `processTraining` returns, and the logs. -/
def processTrainingParsed (db : EnrichDb) (parsed : ParsedDetailData)
    (now : Nat) (plan : FailurePlan) : EnrichDb × Bool × List EnrichLog :=
  if plan.txUpdateFails then
    let fb := markDoneFallback db now plan
    (fb.1, false, .transactionError :: fb.2)
  else
    match updateCenterInfo db.center parsed now plan with
    | (none, centerLogs) =>
      let fb := markDoneFallback db now plan
      (fb.1, false, centerLogs ++ [.transactionError] ++ fb.2)
    | (some center1, centerLogs) =>
      let db1 := { db with center := center1 }
      if plan.commitFails then
        let fb := markDoneFallback db1 now plan
        (fb.1, false, centerLogs ++ [.transactionError] ++ fb.2)
      else
        ({ db1 with training := applyTrainingDetailUpdate db.training parsed now },
         true, centerLogs)

end Enrich

namespace Enrich

/-- A `Training` row as seen by the worker's selection query. -/
structure QueueRow where
  id : Nat
  needsDetail : Bool
  lastDetailScrapedAt : Option Nat
deriving DecidableEq, Repr

/-- Maps a nullable timestamp to a sort key with `NULL` first, modelling
the ascending order of `orderBy: [{ lastDetailScrapedAt: "asc" }]` over a
nullable column. -/
def timeKey : Option Nat → Nat
  | none => 0
  | some t => t + 1

/-- The composite sort key of the worker's `findFirst`:
`lastDetailScrapedAt` ascending then `id` ascending. -/
def rowKey (r : QueueRow) : Nat ×ₗ Nat :=
  toLex (timeKey r.lastDetailScrapedAt, r.id)

/-- Embeds the selection query of `runEnrichment`
(`src/enrich/index.ts`): the first pending training in
(`lastDetailScrapedAt` asc, `id` asc) order. -/
def selectNext (rows : List QueueRow) : Option QueueRow :=
  (rows.filter (fun r => r.needsDetail)).argmin rowKey

/-- Embeds the failure branch of the `runEnrichment` loop: after
`processTraining` returns false, only `lastDetailScrapedAt` of the processed
training is set to the current time. -/
def bumpTimestamp (rows : List QueueRow) (i now : Nat) : List QueueRow :=
  rows.map (fun r =>
    if r.id = i then { r with lastDetailScrapedAt := some now } else r)

/-- Sleep duration of the failure branch:
`humanDelay(randomBetween(2000, 5000))`. -/
def failurePenaltyDelay (r1 r2 : ℚ) : ℚ :=
  Humanizer.humanDelayDuration (Humanizer.randomBetween 2000 5000 r1) r2

/-- Sleep duration of the success branch:
`humanDelay(randomBetween(appConfig.minWaitMs, appConfig.maxWaitMs))`. -/
def successDelay (r1 r2 : ℚ) : ℚ :=
  Humanizer.humanDelayDuration
    (Humanizer.randomBetween AppConfig.minWaitMs AppConfig.maxWaitMs r1) r2

end Enrich

namespace Extract

/-- Sleep duration inserted by `runExtraction` after each query:
`humanDelay(randomBetween(1500, 4000))`. -/
def interQueryDelay (r1 r2 : ℚ) : ℚ :=
  Humanizer.humanDelayDuration (Humanizer.randomBetween 1500 4000 r1) r2

/-- Sleep duration inserted between offset-pagination rounds
(the `processQuery` variant): `humanDelay(randomBetween(minWaitMs,
maxWaitMs))`. -/
def betweenRoundsDelay (r1 r2 : ℚ) : ℚ :=
  Humanizer.humanDelayDuration
    (Humanizer.randomBetween AppConfig.minWaitMs AppConfig.maxWaitMs r1) r2

/-- Wait inserted by `clickLoadMoreIfPresent` after a successful click:
`page.waitForTimeout(Math.ceil(randomBetween(minWaitMs, maxWaitMs)))`. -/
def clickLoadMoreDelay (r : ℚ) : ℤ :=
  ⌈Humanizer.randomBetween AppConfig.minWaitMs AppConfig.maxWaitMs r⌉

/-- Events of the `runExtraction` loop. -/
inductive ExtractEvent where
  | queryProcessed (name : String)
  | delayMs (d : ℚ)
deriving DecidableEq, Repr

/-- Trace of `runExtraction` (`src/extract/index.ts`): each query is
processed and then `humanDelay(randomBetween(1500, 4000))` runs, including
after the last query. `rand` supplies the two random draws of the delay
after the k-th query. -/
def runExtractionTrace : List String → (Nat → ℚ × ℚ) → Nat → List ExtractEvent
  | [], _, _ => []
  | q :: rest, rand, k =>
    .queryProcessed q :: .delayMs (interQueryDelay (rand k).1 (rand k).2) ::
      runExtractionTrace rest rand (k + 1)

end Extract

namespace Opendata

/-- Registry fields read by the sync flow (`OpenDataRecord.fields`). -/
structure OpenDataFields where
  denomination : Option String
  siren : Option String
  siretetablissementdeclarant : Option String
  informationsdeclarees_nbstagiaires : Option ℚ
  informationsdeclarees_nbstagiairesconfiesparunautreof : Option ℚ
  informationsdeclarees_effectifformateurs : Option ℚ
  informationsdeclarees_datedernieredeclaration : Option String
deriving DecidableEq, Repr

/-- One registry record. -/
structure OpenDataRecord where
  fields : OpenDataFields
deriving DecidableEq, Repr

/-- Embeds `normalize` from `src/sync/opendata.ts`: trimmed value when
non-empty, else `undefined`. -/
def normalize (value : Option String) : Option String :=
  match value with
  | none => none
  | some v =>
    let trimmed := Extract.jsTrimStr v
    if trimmed.isEmpty then none else some trimmed

/-- Filter body shared by both `pickBestRecord` variants: the record has a
denomination and its normalized form equals the normalized target. -/
def isExactDenomination (normalizedTarget : String) (record : OpenDataRecord) :
    Bool :=
  match normalize record.fields.denomination with
  | none => false
  | some d => CenterUtil.normalizeCenterName d == normalizedTarget

/-- Embeds `pickBestRecord` from `src/sync/opendata.ts`: the first record
whose normalized denomination equals the normalized center name — and, when
no record does, `records[0]`. -/
def pickBestRecord (centerName : String) (records : List OpenDataRecord) :
    Option OpenDataRecord :=
  let exactMatches := records.filter
    (isExactDenomination (CenterUtil.normalizeCenterName centerName))
  match exactMatches with
  | r :: _ => some r
  | [] => records.head?

/-- A `TrainingCenter` row restricted to the registry columns
`updateCenterWithRecord` writes. `openDataPayload` records that a raw
payload was stored. -/
structure CenterRegistryRow where
  siren : Option String
  siret : Option String
  declaredTrainees : Option ℚ
  delegatedTrainees : Option ℚ
  declaredTrainers : Option ℚ
  openDataPayload : Bool
  openDataUpdatedAt : Option Nat
deriving DecidableEq, Repr

/-- Embeds `updateCenterWithRecord` from `src/sync/opendata.ts` (each column
set to the record value or `null`). -/
def updateCenterWithRecord (record : OpenDataRecord) (now : Nat) :
    CenterRegistryRow :=
  { siren := record.fields.siren
    siret := record.fields.siretetablissementdeclarant
    declaredTrainees := record.fields.informationsdeclarees_nbstagiaires
    delegatedTrainees :=
      record.fields.informationsdeclarees_nbstagiairesconfiesparunautreof
    declaredTrainers := record.fields.informationsdeclarees_effectifformateurs
    openDataPayload := true
    openDataUpdatedAt := some now }

/-- Models the per-center body of `syncOpenData` once the records are
fetched: skip on empty result, skip when `pickBestRecord` accepts nothing,
otherwise overwrite the registry columns. -/
def syncCenterStep (centerName : String) (row : CenterRegistryRow)
    (records : List OpenDataRecord) (now : Nat) : CenterRegistryRow :=
  if records.isEmpty then row
  else
    match pickBestRecord centerName records with
    | none => row
    | some best => updateCenterWithRecord best now

end Opendata

namespace OpendataV2

/-- Embeds `CIVILITY_TOKENS` from the evolved open-data sync variant. -/
def civilityTokens : List String :=
  ["madame", "monsieur", "mme", "mlle", "melle", "m.", "mr", "m"]

/-- Embeds `isCivility`: token equality against the civility list. -/
def isCivility (token : String) : Bool :=
  civilityTokens.contains (String.mk (token.data.map Char.toLower))

/-- Embeds `cleanSpaces`: `s.replace(/\s+/g, " ").trim()`. -/
def cleanSpaces (cs : List Char) : List Char :=
  CenterUtil.jsTrim (CenterUtil.squashRuns CenterUtil.isJsSpace ' ' false cs)

/-- Punctuation removed by `nameTokens`
(`.replace(/[.,;:()'"]/g, " ")`). -/
def isNamePunct (c : Char) : Bool :=
  c = '.' || c = ',' || c = ';' || c = ':' || c = '(' || c = ')' ||
    c = '\'' || c = '"'

/-- Splits a character list at separators, keeping possibly-empty
segments (they are filtered afterwards, matching the regex-run split). -/
def splitSeps (sep : Char → Bool) : List Char → List Char → List (List Char)
  | [], acc => [acc.reverse]
  | c :: cs, acc =>
    if sep c then acc.reverse :: splitSeps sep cs []
    else splitSeps sep cs (c :: acc)

/-- Embeds `nameTokens` from the evolved sync variant: accents and listed
punctuation removed, split on whitespace or hyphens, lowercased, civility
tokens and empty segments dropped. -/
def nameTokens (s : String) : List String :=
  let base := cleanSpaces ((CenterUtil.removeAccents s).data.map
    (fun c => if isNamePunct c then ' ' else c))
  ((splitSeps (fun c => CenterUtil.isJsSpace c || c = '-') base []).map
      (fun t => String.mk (t.map Char.toLower))).filter
    (fun t => t.length > 0 && !isCivility t)

/-- Embeds `hasCivility`: the lowercased string CONTAINS one of the civility
tokens as a substring (note: `"m"` makes this true for any string with an
`m` in it). -/
def hasCivility (s : String) : Bool :=
  civilityTokens.any (fun c =>
    CenterUtil.containsSub c.data (s.data.map Char.toLower))

/-- Embeds `isPersonalNameGoodMatch` from the evolved sync variant: the
record denomination carries a civility marker, the search name has at least
two tokens, and every search token occurs among the record's tokens. -/
def isPersonalNameGoodMatch (searchName recordDenomination : String) : Bool :=
  if !hasCivility recordDenomination then false
  else
    let targetTokens := nameTokens searchName
    let recordTokens := nameTokens recordDenomination
    if targetTokens.length < 2 then false
    else targetTokens.all (fun t => recordTokens.contains t)

/-- Declaration date used for most-recent-first ordering (missing dates sort
as the empty string). -/
def dateOf (r : Opendata.OpenDataRecord) : String :=
  (r.fields.informationsdeclarees_datedernieredeclaration).getD ""

/-- Embeds the in-place `.sort((a, b) => db.localeCompare(da))` applied when
several matches exist: stable sort, most recent declaration date first
(`localeCompare` on these date strings is the usual string order). -/
def sortByDateDesc (l : List Opendata.OpenDataRecord) :
    List Opendata.OpenDataRecord :=
  if l.length > 1 then l.insertionSort (fun a b => dateOf b ≤ dateOf a) else l

/-- Filter body of the personal-name fallback: the record has a denomination
accepted by `isPersonalNameGoodMatch` for this search name. -/
def isPersonalDenomination (centerName : String)
    (record : Opendata.OpenDataRecord) : Bool :=
  match Opendata.normalize record.fields.denomination with
  | none => false
  | some d => isPersonalNameGoodMatch centerName d

/-- Embeds `pickBestRecord` from the evolved open-data sync variant: exact
normalized match first, then the personal-name heuristic, each resolved by a
most-recent-declaration sort; otherwise no acceptable record. -/
def pickBestRecord (centerName : String)
    (records : List Opendata.OpenDataRecord) :
    Option Opendata.OpenDataRecord :=
  let exactMatches := records.filter
    (Opendata.isExactDenomination (CenterUtil.normalizeCenterName centerName))
  match exactMatches with
  | _ :: _ => (sortByDateDesc exactMatches).head?
  | [] =>
    let personalMatches := records.filter (isPersonalDenomination centerName)
    match personalMatches with
    | _ :: _ => (sortByDateDesc personalMatches).head?
    | [] => none

/-- Models the per-center body of the evolved `syncOpenData` once records
are fetched (the `fiscalYearStart` column derived by `parseOpenDataDate` is
elided: no claim inspects it). -/
def syncCenterStep (centerName : String) (row : Opendata.CenterRegistryRow)
    (records : List Opendata.OpenDataRecord) (now : Nat) :
    Opendata.CenterRegistryRow :=
  if records.isEmpty then row
  else
    match pickBestRecord centerName records with
    | none => row
    | some best => Opendata.updateCenterWithRecord best now

end OpendataV2

/-- C10: `randomBetween` is total over the rationals modelling JS numbers:
it returns exactly `min` when `max ≤ min`, and otherwise a value in the
half-open interval `[min, max)` — so a well-ordered bound pair never
produces a value below `min`. -/
theorem c10_randomBetween_total_and_bounded (min max r : ℚ)
    (h0 : 0 ≤ r) (h1 : r < 1) :
    (max ≤ min → Humanizer.randomBetween min max r = min) ∧
    (min < max →
      min ≤ Humanizer.randomBetween min max r ∧
      Humanizer.randomBetween min max r < max) := by
  constructor
  · intro h
    simp [Humanizer.randomBetween, h]
  · intro h
    have hnot : ¬(max ≤ min) := not_le.mpr h
    unfold Humanizer.randomBetween
    rw [if_neg hnot]
    constructor
    · nlinarith
    · nlinarith

/-- Witness for `c10_randomBetween_total_and_bounded` at
`(min, max, r) = (750, 2000, 1/2)`. -/
theorem c10_randomBetween_total_and_bounded_witness :
    ((2000 : ℚ) ≤ 750 → Humanizer.randomBetween 750 2000 (1/2) = 750) ∧
    ((750 : ℚ) < 2000 →
      750 ≤ Humanizer.randomBetween 750 2000 (1/2) ∧
      Humanizer.randomBetween 750 2000 (1/2) < 2000) :=
  c10_randomBetween_total_and_bounded 750 2000 (1/2) (by norm_num) (by norm_num)

/-- C3 (evidence of the divergence): `pickNumber` converts
`"1 234,56 €"` to `1234.56` as the claim states, but converts `"n/a"` to
`0`, not undefined: stripping non-numeric characters leaves the empty
string, and JS `Number("")` is `0`, which is finite and gets returned. -/
theorem c3_pickNumber_at_spec_examples :
    Extract.pickNumber [.vStr "1 234,56 €"] = some (123456 / 100) ∧
    Extract.pickNumber [.vStr "n/a"] = some 0 := by
  have hval1 : Extract.jsNumber "1234.56" = some (123456 / 100) := by
    unfold Extract.jsNumber
    rw [if_neg (by decide), show Extract.jsNumberParts "1234.56" =
      some (false, 1234, 56, 2) from by decide]
    norm_num
  have hval2 : Extract.jsNumber "" = some 0 := by
    unfold Extract.jsNumber
    rw [if_pos (by decide)]
  constructor
  · have hnorm : String.mk
        (Extract.commaToDot (Extract.stripNonNumeric "1 234,56 €").data) =
        "1234.56" := by decide
    simp only [Extract.pickNumber, hnorm, hval1]
  · have hnorm : String.mk
        (Extract.commaToDot (Extract.stripNonNumeric "n/a").data) = "" := by
      decide
    simp only [Extract.pickNumber, hnorm, hval2]

/-- C9: `normalizeCenterName` sends `"SARL Formation Excellence & Cie"` and
`"Excellence et Cie"` to the same token sequence, and whenever token
stripping erases the whole string the result is the accent-stripped,
lowercased, token-intact form instead of the empty string. -/
theorem c9_normalizeCenterName_strip_and_fallback :
    CenterUtil.normalizeCenterName "SARL Formation Excellence & Cie" =
      CenterUtil.normalizeCenterName "Excellence et Cie" ∧
    ∀ rawName : String,
      (CenterUtil.collapseToTokens
        (CenterUtil.stripCorporateTokens
          (CenterUtil.lowerNoAccents rawName))).isEmpty = true →
      CenterUtil.normalizeCenterName rawName =
        String.mk (CenterUtil.collapseToTokens
          (CenterUtil.lowerNoAccents rawName)) := by
  refine ⟨by decide, ?_⟩
  intro rawName h
  unfold CenterUtil.normalizeCenterName
  simp only [h, if_true]

/-- Witness for `c9_normalizeCenterName_strip_and_fallback` at
`"SARL Formation"`, which strips to the empty string. -/
theorem c9_normalizeCenterName_strip_and_fallback_witness :
    (CenterUtil.collapseToTokens
      (CenterUtil.stripCorporateTokens
        (CenterUtil.lowerNoAccents "SARL Formation"))).isEmpty = true ∧
    CenterUtil.normalizeCenterName "SARL Formation" =
      String.mk (CenterUtil.collapseToTokens
        (CenterUtil.lowerNoAccents "SARL Formation")) :=
  ⟨by decide,
    c9_normalizeCenterName_strip_and_fallback.2 "SARL Formation" (by decide)⟩

/-- C7 counterexample: the delay `runExtraction` inserts after a query is
`humanDelay(randomBetween(1500, 4000))`; with both random draws at 0 its
duration is `1500 · 0.3 = 450` ms, strictly below the configured minimum
wait of 750 ms, so the inserted delay does not lie within the configured
minimum/maximum wait bounds. -/
theorem c7_counterexample_delay_below_min :
    Extract.interQueryDelay 0 0 = 450 ∧
    AppConfig.minWaitMs = 750 ∧
    ¬(AppConfig.minWaitMs ≤ Extract.interQueryDelay 0 0) := by
  have h : Extract.interQueryDelay 0 0 = 450 := by
    unfold Extract.interQueryDelay Humanizer.humanDelayDuration
      Humanizer.randomBetween
    norm_num
  refine ⟨h, rfl, ?_⟩
  rw [h]
  norm_num [AppConfig.minWaitMs]

/-- Rounds-after-rounds shape: each processed query is immediately followed
by one inserted delay, including the last one. -/
def delayAfterEachQuery : List Extract.ExtractEvent → Prop
  | [] => True
  | .queryProcessed _ :: .delayMs _ :: rest => delayAfterEachQuery rest
  | _ => False

/-- C7 amended: a randomized delay is always inserted between harvest
rounds and after each query including the final one, but only the
DOM-variant click wait (`ceil(randomBetween(minWaitMs, maxWaitMs))`) is
guaranteed to lie within the configured bounds; the `humanDelay`-based
pauses multiply their base by a jitter in `[0.3, 1.7)`, so the after-query
delay (base drawn from `[1500, 4000)`) lies in `[450, 6800)` and the
offset-variant between-rounds delay (base drawn from the configured bounds)
lies in `[225, 3400)`, not within `[minWaitMs, maxWaitMs]`. -/
theorem c7_amended_pacing (queries : List String) (rand : Nat → ℚ × ℚ)
    (k : Nat) (r r1 r2 : ℚ)
    (hr0 : 0 ≤ r) (hr1 : r < 1) (h10 : 0 ≤ r1) (h11 : r1 < 1)
    (h20 : 0 ≤ r2) (h21 : r2 < 1) :
    delayAfterEachQuery (Extract.runExtractionTrace queries rand k) ∧
    (AppConfig.minWaitMs ≤ (Extract.clickLoadMoreDelay r : ℚ) ∧
      (Extract.clickLoadMoreDelay r : ℚ) ≤ AppConfig.maxWaitMs) ∧
    (450 ≤ Extract.interQueryDelay r1 r2 ∧
      Extract.interQueryDelay r1 r2 < 6800) ∧
    (225 ≤ Extract.betweenRoundsDelay r1 r2 ∧
      Extract.betweenRoundsDelay r1 r2 < 3400) := by
  have hbase : ∀ lo hi u : ℚ, lo < hi → 0 ≤ u → u < 1 →
      lo ≤ Humanizer.randomBetween lo hi u ∧
      Humanizer.randomBetween lo hi u < hi := by
    intro lo hi u hlt h0 h1
    unfold Humanizer.randomBetween
    rw [if_neg (not_le.mpr hlt)]
    constructor
    · nlinarith
    · nlinarith
  refine ⟨?_, ?_, ?_, ?_⟩
  · induction queries generalizing k with
    | nil => simp [Extract.runExtractionTrace, delayAfterEachQuery]
    | cons q rest ih =>
      simpa [Extract.runExtractionTrace, delayAfterEachQuery] using ih (k + 1)
  · have hv := hbase AppConfig.minWaitMs AppConfig.maxWaitMs r
      (by norm_num [AppConfig.minWaitMs, AppConfig.maxWaitMs]) hr0 hr1
    unfold Extract.clickLoadMoreDelay
    constructor
    · exact le_trans hv.1 (Int.le_ceil _)
    · calc ((⌈Humanizer.randomBetween AppConfig.minWaitMs AppConfig.maxWaitMs r⌉ : ℤ) : ℚ)
          ≤ ((2000 : ℤ) : ℚ) := by
            exact_mod_cast Int.ceil_le.mpr
              (le_of_lt (lt_of_lt_of_le hv.2 (by norm_num [AppConfig.maxWaitMs])))
        _ = AppConfig.maxWaitMs := by norm_num [AppConfig.maxWaitMs]
  · have hb := hbase 1500 4000 r1 (by norm_num) h10 h11
    have hj := hbase (3/10) (17/10) r2 (by norm_num) h20 h21
    unfold Extract.interQueryDelay Humanizer.humanDelayDuration
    constructor
    · nlinarith [hb.1, hb.2, hj.1, hj.2]
    · nlinarith [hb.1, hb.2, hj.1, hj.2]
  · have hb := hbase AppConfig.minWaitMs AppConfig.maxWaitMs r1
      (by norm_num [AppConfig.minWaitMs, AppConfig.maxWaitMs]) h10 h11
    have hj := hbase (3/10) (17/10) r2 (by norm_num) h20 h21
    unfold Extract.betweenRoundsDelay Humanizer.humanDelayDuration
    have hlo : (750 : ℚ) ≤ Humanizer.randomBetween AppConfig.minWaitMs AppConfig.maxWaitMs r1 := by
      simpa [AppConfig.minWaitMs] using hb.1
    have hhi : Humanizer.randomBetween AppConfig.minWaitMs AppConfig.maxWaitMs r1 < 2000 := by
      simpa [AppConfig.maxWaitMs] using hb.2
    constructor
    · nlinarith [hj.1, hj.2]
    · nlinarith [hj.1, hj.2]

/-- Witness for `c7_amended_pacing` at one query, zero random draws for the
trace, and jitters 1/2. -/
theorem c7_amended_pacing_witness :
    delayAfterEachQuery
      (Extract.runExtractionTrace ["anglais-distance"] (fun _ => (0, 0)) 0) ∧
    (AppConfig.minWaitMs ≤ (Extract.clickLoadMoreDelay (1/2) : ℚ) ∧
      (Extract.clickLoadMoreDelay (1/2) : ℚ) ≤ AppConfig.maxWaitMs) ∧
    (450 ≤ Extract.interQueryDelay (1/2) (1/2) ∧
      Extract.interQueryDelay (1/2) (1/2) < 6800) ∧
    (225 ≤ Extract.betweenRoundsDelay (1/2) (1/2) ∧
      Extract.betweenRoundsDelay (1/2) (1/2) < 3400) :=
  c7_amended_pacing ["anglais-distance"] (fun _ => (0, 0)) 0 (1/2) (1/2) (1/2)
    (by norm_num) (by norm_num) (by norm_num) (by norm_num)
    (by norm_num) (by norm_num)

/-- Dropping a matched prefix never lengthens a list. -/
theorem dropWhile_length_le (p : Char → Bool) (l : List Char) :
    (l.dropWhile p).length ≤ l.length := by
  induction l with
  | nil => simp
  | cons c cs ih =>
    by_cases h : p c
    · simp only [List.dropWhile, h, List.length_cons]
      omega
    · simp [List.dropWhile, h]

/-- Trimming never lengthens a string. -/
theorem jsTrim_length_le (cs : List Char) :
    (CenterUtil.jsTrim cs).length ≤ cs.length := by
  unfold CenterUtil.jsTrim
  calc ((cs.dropWhile CenterUtil.isJsSpace).reverse.dropWhile
          CenterUtil.isJsSpace).reverse.length
      = ((cs.dropWhile CenterUtil.isJsSpace).reverse.dropWhile
          CenterUtil.isJsSpace).length := by rw [List.length_reverse]
    _ ≤ (cs.dropWhile CenterUtil.isJsSpace).reverse.length :=
        dropWhile_length_le _ _
    _ = (cs.dropWhile CenterUtil.isJsSpace).length := by rw [List.length_reverse]
    _ ≤ cs.length := dropWhile_length_le _ _

/-- Case analysis of `validateWebsiteUrl`: the result is `none` exactly for
empty trimmed input; otherwise it is a value of at most 255 characters,
equal to the trimmed input when that was short enough, and non-empty
whenever the input was long enough to need shortening. -/
theorem validateWebsiteUrl_spec_aux (u : String) :
    (Enrich.validateWebsiteUrl (some u) = none ∧
      (Extract.jsTrimStr u).isEmpty = true) ∨
    (∃ s, Enrich.validateWebsiteUrl (some u) = some s ∧ s.length ≤ 255 ∧
      ((Extract.jsTrimStr u).length ≤ 255 → s = Extract.jsTrimStr u) ∧
      (255 < (Extract.jsTrimStr u).length → 0 < s.length)) := by
  simp only [Enrich.validateWebsiteUrl]
  by_cases h0 : (Extract.jsTrimStr u).isEmpty
  · left
    rw [if_pos h0]
    exact ⟨rfl, h0⟩
  · right
    rw [if_neg h0]
    by_cases h1 : (Extract.jsTrimStr u).length ≤ 255
    · rw [if_pos h1]
      exact ⟨Extract.jsTrimStr u, rfl, h1, fun _ => rfl, fun h => by omega⟩
    · rw [if_neg h1]
      push_neg at h1
      cases hp : Enrich.parseUrl
          (if CenterUtil.startsWithChars "http".data (Extract.jsTrimStr u).data
           then Extract.jsTrimStr u else "https://" ++ Extract.jsTrimStr u) with
      | none =>
        refine ⟨String.mk ((Extract.jsTrimStr u).data.take 255), rfl, ?_, ?_, ?_⟩
        · show ((Extract.jsTrimStr u).data.take 255).length ≤ 255
          rw [List.length_take]
          omega
        · intro h; omega
        · intro _
          show 0 < ((Extract.jsTrimStr u).data.take 255).length
          rw [List.length_take]
          have : (Extract.jsTrimStr u).data.length = (Extract.jsTrimStr u).length := rfl
          omega
      | some urlObj =>
        dsimp only
        by_cases hc : (urlObj.scheme ++ "://" ++ urlObj.host ++ urlObj.path).length ≤ 255
        · rw [if_pos hc]
          refine ⟨_, rfl, hc, fun h => by omega, fun _ => ?_⟩
          have hlen : (urlObj.scheme ++ "://" ++ urlObj.host ++ urlObj.path).length =
              urlObj.scheme.length + 3 + urlObj.host.length + urlObj.path.length := by
            simp [String.length_append]
            rfl
          omega
        · rw [if_neg hc]
          push_neg at hc
          refine ⟨_, rfl, ?_, fun h => by omega, fun _ => ?_⟩
          · show ((urlObj.scheme ++ "://" ++ urlObj.host ++ urlObj.path).data.take 255).length ≤ 255
            rw [List.length_take]
            omega
          · show 0 < ((urlObj.scheme ++ "://" ++ urlObj.host ++ urlObj.path).data.take 255).length
            rw [List.length_take]
            have : (urlObj.scheme ++ "://" ++ urlObj.host ++ urlObj.path).data.length =
                (urlObj.scheme ++ "://" ++ urlObj.host ++ urlObj.path).length := rfl
            omega

set_option maxRecDepth 8000 in
/-- C5: every stored website value is at most 255 characters; the
319-character example URL is shortened to exactly 255 characters and still
parses as an absolute http URL with host `example.com`; and whenever the
trimmed input exceeded 255 characters (the only case in which shortening
happens), `updateCenterInfo` emits the truncation warning. -/
theorem c5_website_guard :
    (∀ u s : String, Enrich.validateWebsiteUrl (some u) = some s →
      s.length ≤ 255) ∧
    (Enrich.validateWebsiteUrl
        (some ("http://example.com/" ++ String.mk (List.replicate 300 'a'))) =
      some ("http://example.com/" ++ String.mk (List.replicate 236 'a')) ∧
      ("http://example.com/" ++ String.mk (List.replicate 236 'a')).length = 255 ∧
      Enrich.parseUrl ("http://example.com/" ++ String.mk (List.replicate 236 'a')) =
        some ⟨"http", "example.com", "/" ++ String.mk (List.replicate 236 'a')⟩) ∧
    (∀ (center : Enrich.CenterInfoRow) (parsed : Enrich.ParsedDetailData)
        (now : Nat) (plan : Enrich.FailurePlan) (w : String),
      parsed.website = some w →
      255 < (Extract.jsTrimStr w).length →
      ∃ n, Enrich.EnrichLog.websiteTruncatedWarn w.length n ∈
        (Enrich.updateCenterInfo center parsed now plan).2) := by
  refine ⟨?_, ⟨by decide, by decide, by decide⟩, ?_⟩
  · intro u s h
    rcases validateWebsiteUrl_spec_aux u with ⟨hn, _⟩ | ⟨t, ht, hle, _, _⟩
    · rw [h] at hn
      exact absurd hn (by simp)
    · rw [h] at ht
      cases ht
      exact hle
  · intro center parsed now plan w hw hll
    rcases validateWebsiteUrl_spec_aux w with ⟨_, hemp⟩ | ⟨s, hs, hle, _, hpos⟩
    · exfalso
      have h0 : Extract.jsTrimStr w = "" := (String.isEmpty_iff _).mp hemp
      rw [h0] at hll
      exact absurd hll (by norm_num)
    · have hslen := hpos hll
      have hsne : s.isEmpty = false := by
        rcases Bool.eq_false_or_eq_true s.isEmpty with h | h
        · exfalso
          rw [(String.isEmpty_iff s).mp h] at hslen
          exact absurd hslen (by norm_num)
        · exact h
      have hupd : (Enrich.buildCenterUpdates parsed now).website = some s := by
        simp [Enrich.buildCenterUpdates, Enrich.keepTruthy, hw, hs,
          Extract.truthy, hsne]
      have hwlen : 255 < w.length := by
        have h1 : (Extract.jsTrimStr w).length ≤ w.length := jsTrim_length_le w.data
        omega
      refine ⟨s.length, ?_⟩
      simp only [Enrich.updateCenterInfo, hw, hupd]
      rcases plan with ⟨pa, pb, pc, pd, pe⟩
      cases pb <;> cases pc <;>
        simp [hwlen, List.mem_append]

/-- The 319-character example website URL. -/
def c5LongUrl : String :=
  "http://example.com/" ++ String.mk (List.replicate 300 'a')

/-- A parse result whose website is the long example URL. -/
def c5Parsed : Enrich.ParsedDetailData :=
  { priceText := none, priceValue := none, durationText := none,
    durationHours := none, summary := none, email := none, phone := none,
    website := some c5LongUrl, address := none, city := none,
    postalCode := none, region := none, country := none }

/-- An empty center row. -/
def c5Center : Enrich.CenterInfoRow :=
  { address := none, city := none, postalCode := none, region := none,
    country := none, email := none, phone := none, website := none,
    lastDetailScrapedAt := none }

/-- The all-success failure plan. -/
def noFailures : Enrich.FailurePlan :=
  { txUpdateFails := false, centerPrimaryFails := false,
    centerRetryFails := false, commitFails := false,
    markFallbackFails := false }

set_option maxRecDepth 8000 in
/-- Witness for `c5_website_guard` at the 319-character example URL. -/
theorem c5_website_guard_witness :
    ("http://example.com/" ++ String.mk (List.replicate 236 'a')).length ≤ 255 ∧
    ∃ n, Enrich.EnrichLog.websiteTruncatedWarn c5LongUrl.length n ∈
      (Enrich.updateCenterInfo c5Center c5Parsed 7 noFailures).2 :=
  ⟨c5_website_guard.1 c5LongUrl
      ("http://example.com/" ++ String.mk (List.replicate 236 'a')) (by decide),
   c5_website_guard.2.2 c5Center c5Parsed 7 noFailures c5LongUrl rfl (by decide)⟩

/-- A registry record whose denomination matches nothing relevant. -/
def c2Record : Opendata.OpenDataRecord :=
  ⟨{ denomination := some "Institut Zeta", siren := some "123456789",
     siretetablissementdeclarant := some "12345678900011",
     informationsdeclarees_nbstagiaires := none,
     informationsdeclarees_nbstagiairesconfiesparunautreof := none,
     informationsdeclarees_effectifformateurs := none,
     informationsdeclarees_datedernieredeclaration := none }⟩

/-- An untouched center registry row with no identifiers. -/
def c2Row : Opendata.CenterRegistryRow :=
  { siren := none, siret := none, declaredTrainees := none,
    delegatedTrainees := none, declaredTrainers := none,
    openDataPayload := false, openDataUpdatedAt := none }

/-- C2 counterexample: the base cross-referencer (`src/sync/opendata.ts`)
accepts a record that is neither an exact normalized-denomination match nor
a personal-name match — `pickBestRecord` falls back to `records[0]` — and
the center's registry fields are updated with it rather than left
untouched. -/
theorem c2_counterexample_fallback_accepts_nonmatch :
    Opendata.isExactDenomination
      (CenterUtil.normalizeCenterName "Alpha Formation") c2Record = false ∧
    OpendataV2.isPersonalDenomination "Alpha Formation" c2Record = false ∧
    Opendata.pickBestRecord "Alpha Formation" [c2Record] = some c2Record ∧
    Opendata.syncCenterStep "Alpha Formation" c2Row [c2Record] 7 ≠ c2Row := by
  refine ⟨by decide, by decide, by decide, ?_⟩
  intro h
  have : (Opendata.syncCenterStep "Alpha Formation" c2Row [c2Record] 7).siren =
      c2Row.siren := by rw [h]
  revert this
  decide

/-- Records in the sorted-if-multiple output come from the input. -/
theorem mem_of_mem_sortByDateDesc {r : Opendata.OpenDataRecord}
    {l : List Opendata.OpenDataRecord}
    (h : r ∈ OpendataV2.sortByDateDesc l) : r ∈ l := by
  unfold OpendataV2.sortByDateDesc at h
  by_cases hl : l.length > 1
  · rw [if_pos hl] at h
    exact (List.mem_insertionSort _).mp h
  · rwa [if_neg hl] at h

/-- C2 amended: the evolved cross-referencer obeys the claimed acceptance
rule — a record is accepted only if it is a fetched record whose normalized
denomination equals the normalized center name exactly or which passes the
civility/token personal-name check, and when no fetched record satisfies
either condition the center row is left untouched. (The base
`src/sync/opendata.ts` variant instead falls back to the first fetched
record when no exact match exists; see the counterexample.) -/
theorem c2_amended_acceptance (centerName : String)
    (records : List Opendata.OpenDataRecord) :
    (∀ r, OpendataV2.pickBestRecord centerName records = some r →
      r ∈ records ∧
      (Opendata.isExactDenomination
          (CenterUtil.normalizeCenterName centerName) r = true ∨
        OpendataV2.isPersonalDenomination centerName r = true)) ∧
    ((∀ r ∈ records,
        Opendata.isExactDenomination
          (CenterUtil.normalizeCenterName centerName) r = false ∧
        OpendataV2.isPersonalDenomination centerName r = false) →
      OpendataV2.pickBestRecord centerName records = none ∧
      ∀ (row : Opendata.CenterRegistryRow) (now : Nat),
        OpendataV2.syncCenterStep centerName row records now = row) := by
  constructor
  · intro r hr
    unfold OpendataV2.pickBestRecord at hr
    cases hx : records.filter
        (Opendata.isExactDenomination
          (CenterUtil.normalizeCenterName centerName)) with
    | cons a as =>
      rw [hx] at hr
      have hmem : r ∈ OpendataV2.sortByDateDesc (a :: as) :=
        List.mem_of_mem_head? hr
      have : r ∈ records.filter
          (Opendata.isExactDenomination
            (CenterUtil.normalizeCenterName centerName)) := by
        rw [hx]; exact mem_of_mem_sortByDateDesc hmem
      have hp := List.of_mem_filter this
      exact ⟨List.mem_of_mem_filter this, Or.inl hp⟩
    | nil =>
      rw [hx] at hr
      dsimp only at hr
      cases hpers : records.filter
          (OpendataV2.isPersonalDenomination centerName) with
      | cons a as =>
        rw [hpers] at hr
        have hmem : r ∈ OpendataV2.sortByDateDesc (a :: as) :=
          List.mem_of_mem_head? hr
        have : r ∈ records.filter (OpendataV2.isPersonalDenomination centerName) := by
          rw [hpers]; exact mem_of_mem_sortByDateDesc hmem
        have hp := List.of_mem_filter this
        exact ⟨List.mem_of_mem_filter this, Or.inr hp⟩
      | nil =>
        rw [hpers] at hr
        exact absurd hr (by simp)
  · intro hnone
    have hx : records.filter
        (Opendata.isExactDenomination
          (CenterUtil.normalizeCenterName centerName)) = [] := by
      rw [List.filter_eq_nil_iff]
      intro a ha
      simp [(hnone a ha).1]
    have hpers : records.filter
        (OpendataV2.isPersonalDenomination centerName) = [] := by
      rw [List.filter_eq_nil_iff]
      intro a ha
      simp [(hnone a ha).2]
    have hpick : OpendataV2.pickBestRecord centerName records = none := by
      unfold OpendataV2.pickBestRecord
      rw [hx]
      dsimp only
      rw [hpers]
    refine ⟨hpick, ?_⟩
    intro row now
    unfold OpendataV2.syncCenterStep
    by_cases he : records.isEmpty
    · rw [if_pos he]
    · rw [if_neg he, hpick]

/-- An exactly matching record for the witness. -/
def c2wRecord : Opendata.OpenDataRecord :=
  ⟨{ denomination := some "EXCELLENCE ET CIE", siren := some "987654321",
     siretetablissementdeclarant := none,
     informationsdeclarees_nbstagiaires := none,
     informationsdeclarees_nbstagiairesconfiesparunautreof := none,
     informationsdeclarees_effectifformateurs := none,
     informationsdeclarees_datedernieredeclaration := some "2024-01-01" }⟩

/-- Witness for `c2_amended_acceptance`: an exact match is accepted, and a
center with only a non-matching candidate is left untouched. -/
theorem c2_amended_acceptance_witness :
    (c2wRecord ∈ [c2wRecord] ∧
      (Opendata.isExactDenomination
          (CenterUtil.normalizeCenterName "SARL Formation Excellence & Cie")
          c2wRecord = true ∨
        OpendataV2.isPersonalDenomination
          "SARL Formation Excellence & Cie" c2wRecord = true)) ∧
    (OpendataV2.pickBestRecord "Beta" [c2Record] = none ∧
      ∀ (row : Opendata.CenterRegistryRow) (now : Nat),
        OpendataV2.syncCenterStep "Beta" row [c2Record] now = row) :=
  ⟨(c2_amended_acceptance "SARL Formation Excellence & Cie" [c2wRecord]).1
      c2wRecord (by decide),
   (c2_amended_acceptance "Beta" [c2Record]).2 (by decide)⟩

/-- Invariant of the per-item dedup loop: the items handed to the persister
have pairwise-distinct keys, none of which was in the incoming key set, and
the outgoing key set covers both the incoming set and the new keys. -/
theorem processItems_keys (items : List Extract.Item) (seen : List String) :
    ((Extract.processItems items seen).1.map Extract.identifyItemKey).Nodup ∧
    (∀ k ∈ (Extract.processItems items seen).1.map Extract.identifyItemKey,
      k ∉ seen) ∧
    (∀ k ∈ seen, k ∈ (Extract.processItems items seen).2) ∧
    (∀ k ∈ (Extract.processItems items seen).1.map Extract.identifyItemKey,
      k ∈ (Extract.processItems items seen).2) := by
  induction items generalizing seen with
  | nil => simp [Extract.processItems]
  | cons item rest ih =>
    by_cases hk : Extract.identifyItemKey item ∈ seen
    · simpa [Extract.processItems, hk] using ih seen
    · have ihs := ih (Extract.identifyItemKey item :: seen)
      have hres : Extract.processItems (item :: rest) seen =
          (item ::
            (Extract.processItems rest (Extract.identifyItemKey item :: seen)).1,
           (Extract.processItems rest (Extract.identifyItemKey item :: seen)).2) := by
        simp [Extract.processItems, hk]
      rw [hres]
      refine ⟨?_, ?_, ?_, ?_⟩
      · simp only [List.map_cons, List.nodup_cons]
        refine ⟨fun hmem => ?_, ihs.1⟩
        exact (ihs.2.1 _ hmem) (List.mem_cons_self _ _)
      · simp only [List.map_cons, List.mem_cons]
        rintro k (rfl | hkm)
        · exact hk
        · intro hin
          exact (ihs.2.1 k hkm) (List.mem_cons_of_mem _ hin)
      · intro k hks
        exact ihs.2.2.1 k (List.mem_cons_of_mem _ hks)
      · simp only [List.map_cons, List.mem_cons]
        rintro k (rfl | hkm)
        · exact ihs.2.2.1 _ (List.mem_cons_self _ _)
        · exact ihs.2.2.2 k hkm

/-- Fold invariant across harvest rounds. -/
theorem processRounds_nodup (rounds : List (List Extract.Item))
    (calls : List Extract.Item) (seen : List String)
    (hnd : (calls.map Extract.identifyItemKey).Nodup)
    (hin : ∀ k ∈ calls.map Extract.identifyItemKey, k ∈ seen) :
    (((rounds.foldl Extract.processRoundStep (calls, seen)).1.map
      Extract.identifyItemKey).Nodup) := by
  induction rounds generalizing calls seen with
  | nil => simpa using hnd
  | cons round rest ih =>
    simp only [List.foldl_cons, Extract.processRoundStep]
    have hstep := processItems_keys round seen
    apply ih
    · rw [List.map_append]
      exact List.Nodup.append hnd hstep.1
        (fun k hk1 hk2 => hstep.2.1 k hk2 (hin k hk1))
    · rw [List.map_append]
      intro k hk
      rcases List.mem_append.mp hk with hk | hk
      · exact hstep.2.2.1 k (hin k hk)
      · exact hstep.2.2.2 k hk

/-- C4: within one query run the persister is invoked at most once per
derived item key — the keys of all persisted items across rounds are
pairwise distinct — and an item whose key is already in the processed set
of the same run is skipped without any persister invocation. -/
theorem c4_dedup_at_most_once (rounds : List (List Extract.Item)) :
    ((Extract.processQueryRun rounds).map Extract.identifyItemKey).Nodup ∧
    ∀ (item : Extract.Item) (rest : List Extract.Item) (seen : List String),
      Extract.identifyItemKey item ∈ seen →
      Extract.processItems (item :: rest) seen =
        Extract.processItems rest seen := by
  constructor
  · exact processRounds_nodup rounds [] [] (by simp) (by simp)
  · intro item rest seen h
    simp [Extract.processItems, h]

/-- A raw item carrying the identifier "A". -/
def c4Item : Extract.Item := [("id", Extract.JsValue.vStr "A")]

/-- Witness for `c4_dedup_at_most_once`: two rounds re-surfacing the same
item yield nodup keys, and a seen key is skipped. -/
theorem c4_dedup_at_most_once_witness :
    ((Extract.processQueryRun [[c4Item], [c4Item]]).map
      Extract.identifyItemKey).Nodup ∧
    Extract.processItems [c4Item] ["A"] = Extract.processItems [] ["A"] :=
  ⟨(c4_dedup_at_most_once [[c4Item], [c4Item]]).1,
   (c4_dedup_at_most_once [[c4Item], [c4Item]]).2 c4Item [] ["A"] (by decide)⟩

/-- C6: after a navigation/parse failure the worker leaves every row's
`needsDetail` untouched and only sets the failed item's
`lastDetailScrapedAt` to the current time; under the oldest-first
(`lastDetailScrapedAt` asc, `id` asc) selection the bumped item is never
selected while another pending item is strictly older than `now`; and the
failure branch's sleep base is drawn from `[2000, 5000)`, strictly above
every success-branch base drawn from the configured `[750, 2000)` bounds. -/
theorem c6_failure_requeue (rows : List Enrich.QueueRow) (i now : Nat)
    (j : Enrich.QueueRow) (hj : j ∈ rows) (hpend : j.needsDetail = true)
    (hid : j.id ≠ i)
    (holder : Enrich.timeKey j.lastDetailScrapedAt <
      Enrich.timeKey (some now))
    (r1 r2 : ℚ) (h10 : 0 ≤ r1) (h11 : r1 < 1) (h20 : 0 ≤ r2) :
    ((Enrich.bumpTimestamp rows i now).map (fun r => (r.id, r.needsDetail)) =
      rows.map (fun r => (r.id, r.needsDetail))) ∧
    (∀ b, Enrich.selectNext (Enrich.bumpTimestamp rows i now) = some b →
      b.id ≠ i) ∧
    (Humanizer.randomBetween AppConfig.minWaitMs AppConfig.maxWaitMs r1 <
      Humanizer.randomBetween 2000 5000 r2) := by
  have hmap : ∀ l : List Enrich.QueueRow,
      (Enrich.bumpTimestamp l i now).map (fun r => (r.id, r.needsDetail)) =
        l.map (fun r => (r.id, r.needsDetail)) := by
    intro l
    induction l with
    | nil => rfl
    | cons r rs ihr =>
      simp only [Enrich.bumpTimestamp, List.map_cons] at *
      by_cases h : r.id = i <;> simp [h, ihr]
  refine ⟨hmap rows, ?_, ?_⟩
  · intro b hb hbid
    have hb' : b ∈ (List.filter (fun r => r.needsDetail)
        (Enrich.bumpTimestamp rows i now)).argmin Enrich.rowKey := hb
    have hbmem := List.argmin_mem hb'
    have hbl := (List.mem_filter.mp hbmem).1
    rcases List.mem_map.mp hbl with ⟨r0, hr0, hr0b⟩
    have hjmem : j ∈ Enrich.bumpTimestamp rows i now := by
      have : (if j.id = i then { j with lastDetailScrapedAt := some now }
          else j) = j := by rw [if_neg hid]
      rw [← this]
      exact List.mem_map_of_mem _ hj
    have hjf : j ∈ (Enrich.bumpTimestamp rows i now).filter
        (fun r => r.needsDetail) :=
      List.mem_filter.mpr ⟨hjmem, hpend⟩
    have hle := List.le_of_mem_argmin hjf hb'
    have hbkey : Enrich.rowKey b = toLex (Enrich.timeKey (some now), i) := by
      by_cases h : r0.id = i
      · rw [if_pos h] at hr0b
        rw [← hr0b]
        unfold Enrich.rowKey
        simp [h]
      · rw [if_neg h] at hr0b
        rw [← hr0b] at hbid
        exact absurd hbid h
    have hlt : Enrich.rowKey j < Enrich.rowKey b := by
      rw [hbkey]
      unfold Enrich.rowKey
      rw [Prod.Lex.lt_iff]
      exact Or.inl holder
    exact absurd (lt_of_lt_of_le hlt hle) (lt_irrefl _)
  · unfold Humanizer.randomBetween AppConfig.minWaitMs AppConfig.maxWaitMs
    rw [if_neg (by norm_num), if_neg (by norm_num)]
    nlinarith

/-- Witness for `c6_failure_requeue`: item 1 fails at time 50 while pending
item 2 was scraped at time 5. -/
theorem c6_failure_requeue_witness :
    ((Enrich.bumpTimestamp
        [⟨1, true, some 10⟩, ⟨2, true, some 5⟩] 1 50).map
      (fun r => (r.id, r.needsDetail)) =
      ([⟨1, true, some 10⟩, ⟨2, true, some 5⟩] :
        List Enrich.QueueRow).map (fun r => (r.id, r.needsDetail))) ∧
    (∀ b, Enrich.selectNext (Enrich.bumpTimestamp
        [⟨1, true, some 10⟩, ⟨2, true, some 5⟩] 1 50) = some b →
      b.id ≠ 1) ∧
    (Humanizer.randomBetween AppConfig.minWaitMs AppConfig.maxWaitMs (1/2) <
      Humanizer.randomBetween 2000 5000 (1/2)) :=
  c6_failure_requeue [⟨1, true, some 10⟩, ⟨2, true, some 5⟩] 1 50
    ⟨2, true, some 5⟩ (by decide) rfl (by decide) (by decide)
    (1/2) (1/2) (by norm_num) (by norm_num) (by norm_num)

/-- C8: in the one-training-per-center persister, for an item with a title
and a detail URL that does not yet exist as a Training row: when the
resolved center already owns a training, the item is skipped — the store is
left as `ensureCenter` produced it, the function reports `false`, and the
duplicate signal is logged; otherwise exactly one new training row is
created for that center and the function reports `true`. -/
theorem c8_one_training_per_center
    (db : Extract.Db) (item : Extract.NormalizedListItem)
    (queryName : String) (now : Nat)
    (db1 : Extract.Db) (center : Extract.TrainingCenterRow)
    (logs : List Extract.LogEvent)
    (ht : Extract.truthy item.title = true)
    (hd : Extract.truthy item.detailUrl = true)
    (hens : Extract.ensureCenter db item now = (db1, some center, logs))
    (hnew : db1.trainings.find?
      (fun t => t.detailUrl = item.detailUrl.getD "") = none) :
    (∀ t0, db1.trainings.find? (fun t => t.centerId = center.id) = some t0 →
      Extract.persistListItem db item queryName now =
        (db1, false, logs ++ [.duplicateCenterDebug center.id])) ∧
    (db1.trainings.find? (fun t => t.centerId = center.id) = none →
      Extract.persistListItem db item queryName now =
        ({ db1 with
            trainings := db1.trainings ++
              [{ id := db1.nextTrainingId, centerId := center.id,
                 detailUrl := item.detailUrl.getD "",
                 title := item.title.getD "", searchQuery := queryName,
                 needsDetail := true, lastListScrapedAt := now }]
            nextTrainingId := db1.nextTrainingId + 1 }, true, logs)) := by
  constructor
  · intro t0 hfind
    simp [Extract.persistListItem, ht, hd, hens, hnew, hfind]
  · intro hfind
    simp [Extract.persistListItem, ht, hd, hens, hnew, hfind]

/-- The pre-existing center of the C8 witness store. -/
def c8Center : Extract.TrainingCenterRow :=
  { id := 0, externalId := none, name := "Gamma", normalizedName := "gamma",
    city := none, postalCode := none, region := none, country := "FR",
    lastListScrapedAt := 0 }

/-- The training already owned by that center. -/
def c8Training : Extract.TrainingRow :=
  { id := 0, centerId := 0, detailUrl := "formation/1", title := "T0",
    searchQuery := "q", needsDetail := true, lastListScrapedAt := 0 }

/-- The witness store: one center owning one training. -/
def c8Db : Extract.Db :=
  { centers := [c8Center], trainings := [c8Training], nextCenterId := 1,
    nextTrainingId := 1 }

/-- A fresh list item resolving to the same center. -/
def c8Item : Extract.NormalizedListItem :=
  { title := some "T1", detailUrl := some "formation/2",
    centerName := some "Gamma", centerExternalId := none, centerCity := none,
    centerPostalCode := none, centerRegion := none, centerCountry := none }

/-- The center row after `ensureCenter` refreshed it. -/
def c8CenterUpd : Extract.TrainingCenterRow :=
  { id := 0, externalId := none, name := "Gamma", normalizedName := "gamma",
    city := none, postalCode := none, region := none, country := "FR",
    lastListScrapedAt := 5 }

/-- The store after `ensureCenter`. -/
def c8Db1 : Extract.Db :=
  { centers := [c8CenterUpd], trainings := [c8Training], nextCenterId := 1,
    nextTrainingId := 1 }

/-- Witness for `c8_one_training_per_center`: the item is skipped because
the center already owns a training. -/
theorem c8_one_training_per_center_witness :
    Extract.persistListItem c8Db c8Item "q" 5 =
      (c8Db1, false, [Extract.LogEvent.duplicateCenterDebug 0]) :=
  (c8_one_training_per_center c8Db c8Item "q" 5 c8Db1 c8CenterUpd []
      (by decide) (by decide) (by decide) (by decide)).1
    c8Training (by decide)

/-- A successful parse result with price, duration, address and email. -/
def c1Parsed : Enrich.ParsedDetailData :=
  { priceText := some "1000 €", priceValue := some 1000,
    durationText := some "20 heures", durationHours := some 20,
    summary := none, email := some "contact@exemple.fr", phone := none,
    website := none, address := some "1 rue de la Paix", city := some "Paris",
    postalCode := some "75001", region := none, country := some "FR" }

/-- The pending training row of the counterexample store. -/
def c1Training : Enrich.TrainingDetailRow :=
  { needsDetail := true, priceText := none, priceValue := none,
    durationText := none, durationHours := none, summary := none,
    detailPageData := false, lastDetailScrapedAt := none }

/-- A pending training with an empty center row. -/
def c1Db : Enrich.EnrichDb :=
  { training := c1Training, center := c5Center }

/-- The plan in which only the transaction commit fails. -/
def c1CommitFailPlan : Enrich.FailurePlan :=
  { txUpdateFails := false, centerPrimaryFails := false,
    centerRetryFails := false, commitFails := true,
    markFallbackFails := false }

/-- C1 counterexample: `updateCenterInfo` writes through the global client
from inside `prisma.$transaction`, so when the transaction then fails to
commit, the reached state has the center's address and email updated while
the training row carries none of the parsed detail fields — and the catch
fallback has set `needsDetail` to false rather than leaving it true. -/
theorem c1_counterexample_partial_state :
    ((Enrich.processTrainingParsed c1Db c1Parsed 9 c1CommitFailPlan).1.center.address =
      some "1 rue de la Paix") ∧
    ((Enrich.processTrainingParsed c1Db c1Parsed 9 c1CommitFailPlan).1.center.email =
      some "contact@exemple.fr") ∧
    ((Enrich.processTrainingParsed c1Db c1Parsed 9 c1CommitFailPlan).1.training.priceValue =
      none) ∧
    ((Enrich.processTrainingParsed c1Db c1Parsed 9 c1CommitFailPlan).1.training.detailPageData =
      false) ∧
    ((Enrich.processTrainingParsed c1Db c1Parsed 9 c1CommitFailPlan).1.training.needsDetail =
      false) := by
  refine ⟨?_, ?_, ?_, ?_, ?_⟩ <;> decide

/-- C1 amended: when every store operation succeeds, the training update
and the center update are applied together and the step reports success;
whenever the step reports failure, the fallback has written no detail field
of the training row (price, duration, summary, raw payload all keep their
previous values); but the updates are NOT atomic — the center update is
issued on the global client, so a commit failure leaves the center fully
updated while the training row is un-enriched with `needsDetail` set to
false by the fallback. -/
theorem c1_amended_transaction (db : Enrich.EnrichDb)
    (parsed : Enrich.ParsedDetailData) (now : Nat) :
    ((Enrich.processTrainingParsed db parsed now noFailures).2.1 = true ∧
      (Enrich.processTrainingParsed db parsed now noFailures).1.training =
        Enrich.applyTrainingDetailUpdate db.training parsed now ∧
      (Enrich.processTrainingParsed db parsed now noFailures).1.center =
        Enrich.applyCenterUpdates db.center
          (Enrich.buildCenterUpdates parsed now)) ∧
    (∀ plan : Enrich.FailurePlan,
      (Enrich.processTrainingParsed db parsed now plan).2.1 = false →
      (Enrich.processTrainingParsed db parsed now plan).1.training.priceText =
        db.training.priceText ∧
      (Enrich.processTrainingParsed db parsed now plan).1.training.priceValue =
        db.training.priceValue ∧
      (Enrich.processTrainingParsed db parsed now plan).1.training.durationText =
        db.training.durationText ∧
      (Enrich.processTrainingParsed db parsed now plan).1.training.durationHours =
        db.training.durationHours ∧
      (Enrich.processTrainingParsed db parsed now plan).1.training.summary =
        db.training.summary ∧
      (Enrich.processTrainingParsed db parsed now plan).1.training.detailPageData =
        db.training.detailPageData) ∧
    ((Enrich.processTrainingParsed db parsed now c1CommitFailPlan).1.center =
      Enrich.applyCenterUpdates db.center
        (Enrich.buildCenterUpdates parsed now) ∧
      (Enrich.processTrainingParsed db parsed now c1CommitFailPlan).1.training.priceValue =
        db.training.priceValue ∧
      (Enrich.processTrainingParsed db parsed now c1CommitFailPlan).1.training.needsDetail =
        false) := by
  refine ⟨?_, ?_, ?_⟩
  · simp [Enrich.processTrainingParsed, noFailures, Enrich.updateCenterInfo]
  · intro plan hfalse
    revert hfalse
    rcases plan with ⟨a, b, c, d, e⟩
    rcases hw : (Enrich.buildCenterUpdates parsed now).website with _ | w <;>
      cases a <;> cases b <;> cases c <;> cases d <;> cases e <;>
      simp [Enrich.processTrainingParsed, Enrich.updateCenterInfo,
        Enrich.markDoneFallback, hw]
  · simp [Enrich.processTrainingParsed, c1CommitFailPlan,
      Enrich.updateCenterInfo, Enrich.markDoneFallback]

/-- Witness for `c1_amended_transaction` at the concrete store, parse
result and commit-failure plan of the counterexample. -/
theorem c1_amended_transaction_witness :
    ((Enrich.processTrainingParsed c1Db c1Parsed 9 noFailures).2.1 = true ∧
      (Enrich.processTrainingParsed c1Db c1Parsed 9 noFailures).1.training =
        Enrich.applyTrainingDetailUpdate c1Db.training c1Parsed 9 ∧
      (Enrich.processTrainingParsed c1Db c1Parsed 9 noFailures).1.center =
        Enrich.applyCenterUpdates c1Db.center
          (Enrich.buildCenterUpdates c1Parsed 9)) ∧
    ((Enrich.processTrainingParsed c1Db c1Parsed 9 c1CommitFailPlan).1.training.priceText =
      c1Db.training.priceText ∧
      (Enrich.processTrainingParsed c1Db c1Parsed 9 c1CommitFailPlan).1.training.priceValue =
        c1Db.training.priceValue ∧
      (Enrich.processTrainingParsed c1Db c1Parsed 9 c1CommitFailPlan).1.training.durationText =
        c1Db.training.durationText ∧
      (Enrich.processTrainingParsed c1Db c1Parsed 9 c1CommitFailPlan).1.training.durationHours =
        c1Db.training.durationHours ∧
      (Enrich.processTrainingParsed c1Db c1Parsed 9 c1CommitFailPlan).1.training.summary =
        c1Db.training.summary ∧
      (Enrich.processTrainingParsed c1Db c1Parsed 9 c1CommitFailPlan).1.training.detailPageData =
        c1Db.training.detailPageData) :=
  ⟨(c1_amended_transaction c1Db c1Parsed 9).1,
   (c1_amended_transaction c1Db c1Parsed 9).2.1 c1CommitFailPlan (by decide)⟩
